import Mathlib

/-!
Verification of the fee-estimator core of the `dcrfeesim` repository
(`estimator.go`).  The estimator's floating-point accumulators are modelled
by exact rationals (`ℚ`); `int32` quantities are modelled by `ℤ` and list
indices by `ℕ`.  Every definition below is a direct translation of the
corresponding Go function in `src/estimator.go`.
-/

namespace DcrFeeSim

/-- One cell of the per-(fee bucket × confirmation slot) table:
`txConfirmStatBucketCount` in the source. -/
structure TxConfirmStatBucketCount where
  txCount : ℚ
  feeSum  : ℚ
  deriving DecidableEq

/-- The zero cell (Go's zero value for `txConfirmStatBucketCount`). -/
def zeroCount : TxConfirmStatBucketCount := ⟨0, 0⟩

/-- One fee bucket: `txConfirmStatBucket` in the source.  `confirmed` is the
row of per-confirmation-slot cells, `confirmCount`/`feeSum` the per-bucket
aggregates. -/
structure TxConfirmStatBucket where
  upperBound   : ℚ
  confirmed    : List TxConfirmStatBucketCount
  confirmCount : ℚ
  feeSum       : ℚ
  deriving DecidableEq

/-- A default bucket used when indexing out of range (the Go code never
indexes out of range at the points we model). -/
def zeroBucket : TxConfirmStatBucket := ⟨0, [], 0, 0⟩

/-- The whole estimator state: `txConfirmStats` in the source. -/
structure TxConfirmStats where
  buckets     : List TxConfirmStatBucket
  memPool     : List TxConfirmStatBucket
  maxConfirms : ℤ
  decay       : ℚ
  deriving DecidableEq

/-- The geometric fee-bucket bound generation loop of `newTxConfirmStats`:
`for f := 10; f < 3e8; f *= 1.5 { append f }`, written with a fuel
parameter large enough to cover the full range (43 bounds are generated). -/
def bucketFeesAux : ℕ → ℚ → List ℚ
  | 0, _ => []
  | fuel + 1, f => if f < 300000000 then f :: bucketFeesAux fuel (f * (3 / 2)) else []

/-- The bucket upper bounds produced by `newTxConfirmStats`. -/
def bucketFees : List ℚ := bucketFeesAux 64 10

/-- An initial (all-zero) bucket with the given upper bound and
`maxConfirms = 5` confirmation slots, as built by `newTxConfirmStats`. -/
def initialBucket (f : ℚ) : TxConfirmStatBucket :=
  { upperBound := f
    confirmed := List.replicate 5 zeroCount
    confirmCount := 0
    feeSum := 0 }

/-- Constructor `newTxConfirmStats` from the source: `maxConfirms = 5`,
`decay = 0.998 = 499/500`, geometric bucket bounds. -/
def newTxConfirmStats : TxConfirmStats :=
  { buckets := bucketFees.map initialBucket
    memPool := bucketFees.map initialBucket
    maxConfirms := 5
    decay := 499 / 500 }

/-- The scanning loop of `lowerBucket`: return the first index `i` with
`buckets[i+1].upperBound > rate`, and `l - 1` when no such index exists. -/
def lowerBucketAux (rate : ℚ) : List TxConfirmStatBucket → ℕ
  | _b0 :: b1 :: rest =>
    if rate < b1.upperBound then 0 else 1 + lowerBucketAux rate (b1 :: rest)
  | _ => 0

/-- Function `txConfirmStats.lowerBucket` from the source. -/
def TxConfirmStats.lowerBucket (stats : TxConfirmStats) (rate : ℚ) : ℕ :=
  lowerBucketAux rate stats.buckets

/-- Function `txConfirmStats.confirmRange` from the source:
`if blocksToConfirm >= maxConfirms { maxConfirms - 1 } else { blocksToConfirm }`. -/
def TxConfirmStats.confirmRange (stats : TxConfirmStats) (blocksToConfirm : ℤ) : ℤ :=
  if stats.maxConfirms ≤ blocksToConfirm then stats.maxConfirms - 1 else blocksToConfirm

/-- Apply `f` to the element at index `n` of a list, leaving everything else
unchanged (in-place update through a pointer in the Go source). -/
def modifyIdx (f : α → α) : ℕ → List α → List α
  | _, [] => []
  | 0, a :: rest => f a :: rest
  | n + 1, a :: rest => a :: modifyIdx f n rest

/-- One cell decayed: `conf.feeSum *= decay; conf.txCount *= decay`. -/
def decayCount (d : ℚ) (c : TxConfirmStatBucketCount) : TxConfirmStatBucketCount :=
  { txCount := c.txCount * d, feeSum := c.feeSum * d }

/-- One confirmed bucket decayed: aggregates and every cell multiplied by
the decay factor (first loop of `updateMovingAverages`). -/
def decayBucket (d : ℚ) (b : TxConfirmStatBucket) : TxConfirmStatBucket :=
  { b with
    feeSum := b.feeSum * d
    confirmCount := b.confirmCount * d
    confirmed := b.confirmed.map (decayCount d) }

/-- The descending copy loop of the mempool shift:
`for c := len-2; c > 0; c-- { confirmed[c] = confirmed[c-1] }`.
`shiftDown k` performs the assignments at indices `k, k-1, …, 1`. -/
def shiftDown : ℕ → List TxConfirmStatBucketCount → List TxConfirmStatBucketCount
  | 0, l => l
  | c + 1, l => shiftDown c (l.set (c + 1) (l.getD c zeroCount))

/-- The mempool shift of one bucket (second loop of `updateMovingAverages`):
merge the second-to-last slot into the last, move every other slot up by
one, zero slot 0. -/
def shiftBucket (b : TxConfirmStatBucket) : TxConfirmStatBucket :=
  let n := b.confirmed.length
  let last := b.confirmed.getD (n - 1) zeroCount
  let prev := b.confirmed.getD (n - 2) zeroCount
  let merged := b.confirmed.set (n - 1) ⟨last.txCount + prev.txCount, last.feeSum + prev.feeSum⟩
  { b with confirmed := (shiftDown (n - 2) merged).set 0 zeroCount }

/-- Function `txConfirmStats.updateMovingAverages` from the source. -/
def TxConfirmStats.updateMovingAverages (stats : TxConfirmStats) : TxConfirmStats :=
  { stats with
    buckets := stats.buckets.map (decayBucket stats.decay)
    memPool := stats.memPool.map shiftBucket }

/-- A cell incremented by one transaction at the given fee rate:
`conf.feeSum += rate; conf.txCount++`. -/
def bumpCell (rate : ℚ) (c : TxConfirmStatBucketCount) : TxConfirmStatBucketCount :=
  ⟨c.txCount + 1, c.feeSum + rate⟩

/-- A cell decremented by one transaction at the given fee rate:
`conf.feeSum -= rate; conf.txCount--`. -/
def decCell (rate : ℚ) (c : TxConfirmStatBucketCount) : TxConfirmStatBucketCount :=
  ⟨c.txCount - 1, c.feeSum - rate⟩

/-- Function `txConfirmStats.newMemPoolTx` from the source: bump the cell at
`(lowerBucket rate, 0)` of the mempool table. -/
def TxConfirmStats.newMemPoolTx (stats : TxConfirmStats) (rate : ℚ) : TxConfirmStats :=
  let bucketIdx := stats.lowerBucket rate
  { stats with
    memPool := modifyIdx
      (fun b => { b with confirmed := modifyIdx (bumpCell rate) 0 b.confirmed })
      bucketIdx stats.memPool }

/-- The increment loop of `newMinedTx`:
`for c := confirmIdx; c < len(confirmed); c++ { bump }`, i.e. bump every
cell whose index is `≥ s` (counting down the remaining offset). -/
def bumpFrom (rate : ℚ) : ℤ → List TxConfirmStatBucketCount →
    List TxConfirmStatBucketCount
  | _, [] => []
  | s, c :: rest => (if s ≤ 0 then bumpCell rate c else c) :: bumpFrom rate (s - 1) rest

/-- Function `txConfirmStats.newMinedTx` from the source: bump all confirmed cells of
the rate's bucket from slot `confirmRange blocksToConfirm` up, bump the
per-bucket aggregates once, and decrement the mempool cell at
`(bucket, confirmRange blocksToConfirm)`.  (On a negative resulting mempool
count the source additionally aborts the process; the state at that point
is as modelled here.) -/
def TxConfirmStats.newMinedTx (stats : TxConfirmStats) (blocksToConfirm : ℤ) (rate : ℚ) :
    TxConfirmStats :=
  let bucketIdx := stats.lowerBucket rate
  let confirmIdx := stats.confirmRange blocksToConfirm
  { stats with
    buckets := modifyIdx
      (fun b => { b with
        confirmed := bumpFrom rate confirmIdx b.confirmed
        confirmCount := b.confirmCount + 1
        feeSum := b.feeSum + rate })
      bucketIdx stats.buckets
    memPool := modifyIdx
      (fun b => { b with confirmed := modifyIdx (decCell rate) confirmIdx.toNat b.confirmed })
      bucketIdx stats.memPool }

/-- The confirmed-table bucket at index `b` (zero bucket out of range). -/
def TxConfirmStats.bucketAt (stats : TxConfirmStats) (b : ℕ) : TxConfirmStatBucket :=
  stats.buckets.getD b zeroBucket

/-- The mempool-table bucket at index `b` (zero bucket out of range). -/
def TxConfirmStats.memAt (stats : TxConfirmStats) (b : ℕ) : TxConfirmStatBucket :=
  stats.memPool.getD b zeroBucket

/-- The `txCount` of a bucket's confirmation cell at slot `s`. -/
def cellTx (bk : TxConfirmStatBucket) (s : ℕ) : ℚ :=
  (bk.confirmed.getD s zeroCount).txCount

/-- Errors returned by `estimateMedianFee`: the two named errors of the
source plus the inline `errors.New` of the trailing branch. -/
inductive EstimateError where
  | noSuccessPctBucketFound
  | notEnoughTxsForEstimate
  | internalError
  deriving DecidableEq

/-- The mutable state of the backwards scan of `estimateMedianFee`. -/
structure ScanState where
  totalTxs     : ℚ
  confirmedTxs : ℚ
  bestStt      : ℤ
  bestEnd      : ℤ
  curStt       : ℤ
  curEnd       : ℤ
  deriving DecidableEq

/-- The backwards scan of `estimateMedianFee`
(`for b := startIdx; b >= 0; b--`), written with the remaining iteration
count as fuel: at fuel `k + 1` the bucket being processed is `b = k`.
`minTxCount = 1` is inlined, as in the source. -/
def scanLoop (stats : TxConfirmStats) (cIdx : ℕ) (successPct : ℚ) (startIdx : ℤ) :
    ℕ → ScanState → Except EstimateError (ℤ × ℤ)
  | 0, st => .ok (st.bestStt, st.bestEnd)
  | fuel + 1, st =>
    let b := fuel
    let total := st.totalTxs + (stats.bucketAt b).confirmCount + cellTx (stats.memAt b) cIdx
    let conf := st.confirmedTxs + cellTx (stats.bucketAt b) cIdx
    if 1 < total then
      if conf / total < successPct then
        if st.curEnd = startIdx then .error .noSuccessPctBucketFound
        else .ok (st.bestStt, st.bestEnd)
      else
        scanLoop stats cIdx successPct startIdx fuel
          ⟨0, 0, (b : ℤ), st.curEnd, (b : ℤ), (b : ℤ) - 1⟩
    else
      scanLoop stats cIdx successPct startIdx fuel
        ⟨total, conf, st.bestStt, st.bestEnd, (b : ℤ), st.curEnd⟩

/-- The ascending bucket indices `stt, stt+1, …, e` visited by the two
median-phase loops (`for b := bestBucketsStt; b <= bestBucketsEnd; b++`). -/
def rangeList (stt e : ℕ) : List ℕ := (List.range (e + 1 - stt)).map (· + stt)

/-- The first median-phase loop: `txCount += buckets[b].confirmCount`. -/
def sumConfirmCount (stats : TxConfirmStats) (l : List ℕ) : ℚ :=
  (l.map (fun b => (stats.bucketAt b).confirmCount)).sum

/-- The second median-phase loop: subtract `confirmCount` while it is below
the remaining half-count, return `feeSum / confirmCount` of the first
bucket at or above it; the trailing `errors.New` branch when the loop runs
out. -/
def medianLoop (stats : TxConfirmStats) : ℚ → List ℕ → Except EstimateError ℚ
  | _, [] => .error .internalError
  | t, b :: rest =>
    if (stats.bucketAt b).confirmCount < t then
      medianLoop stats (t - (stats.bucketAt b).confirmCount) rest
    else
      .ok ((stats.bucketAt b).feeSum / (stats.bucketAt b).confirmCount)

/-- The median phase of `estimateMedianFee` over the selected bucket range. -/
def medianPhase (stats : TxConfirmStats) (stt e : ℕ) : Except EstimateError ℚ :=
  let txCount := sumConfirmCount stats (rangeList stt e)
  if txCount ≤ 0 then .error .notEnoughTxsForEstimate
  else medianLoop stats (txCount / 2) (rangeList stt e)

/-- Function `txConfirmStats.estimateMedianFee` from the source: backwards scan for
the best bucket range, then size-weighted median over that range. -/
def TxConfirmStats.estimateMedianFee (stats : TxConfirmStats) (minConfs : ℤ)
    (successPct : ℚ) : Except EstimateError ℚ :=
  let startIdx : ℤ := (stats.buckets.length : ℤ) - 1
  let cIdx := (stats.confirmRange minConfs).toNat
  match scanLoop stats cIdx successPct startIdx stats.buckets.length
      ⟨0, 0, startIdx, startIdx, startIdx, startIdx⟩ with
  | .error e => .error e
  | .ok (stt, e) => medianPhase stats stt.toNat e.toNat



/-! ### Concrete states used by witnesses and counterexamples -/

/-- A small handmade estimator state with three fee buckets, used to
exercise the general theorems on concrete inputs.  Bucket 2 holds ten
confirmed transactions with total fee 1000 at every slot; bucket 1 holds a
staircase of cells. -/
def demoStats : TxConfirmStats :=
  { buckets :=
      [ { upperBound := 10, confirmed := List.replicate 5 zeroCount
          confirmCount := 0, feeSum := 0 }
      , { upperBound := 15
          confirmed := [⟨1, 10⟩, ⟨2, 20⟩, ⟨3, 30⟩, ⟨4, 40⟩, ⟨5, 50⟩]
          confirmCount := 5, feeSum := 500 }
      , { upperBound := 45 / 2
          confirmed := List.replicate 5 (⟨10, 1000⟩ : TxConfirmStatBucketCount)
          confirmCount := 10, feeSum := 1000 } ]
    memPool :=
      [ { upperBound := 10
          confirmed := [⟨1, 10⟩, ⟨2, 20⟩, ⟨3, 30⟩, ⟨4, 40⟩, ⟨5, 50⟩]
          confirmCount := 0, feeSum := 0 }
      , { upperBound := 15, confirmed := List.replicate 5 zeroCount
          confirmCount := 0, feeSum := 0 }
      , { upperBound := 45 / 2
          confirmed := [⟨1, 100⟩, ⟨2, 200⟩, ⟨3, 300⟩, ⟨4, 400⟩, ⟨5, 500⟩]
          confirmCount := 0, feeSum := 0 } ]
    maxConfirms := 5
    decay := 499 / 500 }

/-- State `newTxConfirmStats` after recording three mempool transactions at rate
300000 (fee bucket 25). -/
def threeTxState : TxConfirmStats :=
  ((newTxConfirmStats.newMemPoolTx 300000).newMemPoolTx 300000).newMemPoolTx 300000

/-- State `threeTxState` after one block passes (`updateMovingAverages`) and the
three transactions are mined with delay 1. -/
def minedState : TxConfirmStats :=
  let s2 := threeTxState.updateMovingAverages
  ((s2.newMinedTx 1 300000).newMinedTx 1 300000).newMinedTx 1 300000

/-- State `newTxConfirmStats` after recording one mempool transaction at rate
300000, used to exercise a same-block (delay 0) mining. -/
def oneTxState : TxConfirmStats := newTxConfirmStats.newMemPoolTx 300000

/-- The invariant of claim C9: within each fee bucket of the confirmed
table, `txCount` is non-decreasing across consecutive delay slots. -/
def MonoConfirmed (stats : TxConfirmStats) : Prop :=
  ∀ i, i < stats.buckets.length →
    ∀ s, s < (stats.bucketAt i).confirmed.length - 1 →
      ((stats.bucketAt i).confirmed.getD s zeroCount).txCount ≤
        ((stats.bucketAt i).confirmed.getD (s + 1) zeroCount).txCount

/-- The size-weighted median selection as the spec describes it: scan the
range in ascending order, subtract `confirmCount` from the running
half-total while `confirmCount` is below it, and select the first bucket at
or above it (none when the scan runs out). -/
def specMedianSelect (stats : TxConfirmStats) : ℚ → List ℕ → Option ℕ
  | _, [] => none
  | t, b :: rest =>
    if (stats.bucketAt b).confirmCount < t then
      specMedianSelect stats (t - (stats.bucketAt b).confirmCount) rest
    else some b

/-! ### Helper lemmas about the list-update primitives -/

theorem length_modifyIdx (f : α → α) (n : ℕ) (l : List α) :
    (modifyIdx f n l).length = l.length := by
  induction l generalizing n with
  | nil => cases n <;> rfl
  | cons a rest ih =>
    cases n with
    | zero => rfl
    | succ m => simp [modifyIdx, ih m]

theorem getD_modifyIdx (f : α → α) (d : α) (n : ℕ) (l : List α) (i : ℕ) :
    (modifyIdx f n l).getD i d =
      if i = n ∧ i < l.length then f (l.getD i d) else l.getD i d := by
  induction l generalizing n i with
  | nil => cases n <;> simp [modifyIdx]
  | cons a rest ih =>
    cases n with
    | zero =>
      cases i with
      | zero => simp [modifyIdx]
      | succ j => simp [modifyIdx]
    | succ m =>
      cases i with
      | zero => simp [modifyIdx]
      | succ j =>
        simp only [modifyIdx, List.getD_cons_succ, List.length_cons, ih m j]
        by_cases h1 : j = m
        · by_cases h2 : j < rest.length
          · rw [if_pos ⟨h1, h2⟩, if_pos ⟨by omega, by omega⟩]
          · rw [if_neg (by omega), if_neg (by omega)]
        · rw [if_neg (by omega), if_neg (by omega)]

theorem getD_set' (l : List α) (n : ℕ) (a : α) (i : ℕ) (d : α) :
    (l.set n a).getD i d = if i = n ∧ i < l.length then a else l.getD i d := by
  induction l generalizing n i with
  | nil => simp
  | cons hd tl ih =>
    cases n with
    | zero =>
      cases i with
      | zero => simp
      | succ j => simp [List.set]
    | succ m =>
      cases i with
      | zero => simp [List.set]
      | succ j =>
        simp only [List.set, List.getD_cons_succ, List.length_cons, ih m j]
        by_cases h1 : j = m
        · by_cases h2 : j < tl.length
          · rw [if_pos ⟨h1, h2⟩, if_pos ⟨by omega, by omega⟩]
          · rw [if_neg (by omega), if_neg (by omega)]
        · rw [if_neg (by omega), if_neg (by omega)]

theorem length_bumpFrom (rate : ℚ) (s : ℤ) (l : List TxConfirmStatBucketCount) :
    (bumpFrom rate s l).length = l.length := by
  induction l generalizing s with
  | nil => rfl
  | cons c rest ih => simp [bumpFrom, ih]

theorem getD_bumpFrom (rate : ℚ) (s : ℤ) (l : List TxConfirmStatBucketCount) (c : ℕ) :
    (bumpFrom rate s l).getD c zeroCount =
      if s ≤ (c : ℤ) ∧ c < l.length then bumpCell rate (l.getD c zeroCount)
      else l.getD c zeroCount := by
  induction l generalizing s c with
  | nil => simp [bumpFrom]
  | cons a rest ih =>
    cases c with
    | zero =>
      simp only [bumpFrom, List.getD_cons_zero, List.length_cons, Nat.cast_zero]
      by_cases h : s ≤ 0
      · rw [if_pos h, if_pos ⟨h, by omega⟩]
      · rw [if_neg h, if_neg (by omega)]
    | succ j =>
      simp only [bumpFrom, List.getD_cons_succ, List.length_cons, ih (s - 1) j]
      by_cases h1 : s - 1 ≤ (j : ℤ)
      · by_cases h2 : j < rest.length
        · rw [if_pos ⟨h1, h2⟩, if_pos ⟨by omega, by omega⟩]
        · rw [if_neg (by omega), if_neg (by omega)]
      · rw [if_neg (by omega), if_neg (by omega)]

theorem getD_map' (f : TxConfirmStatBucket → TxConfirmStatBucket)
    (l : List TxConfirmStatBucket) (i : ℕ) (h : i < l.length) :
    (l.map f).getD i zeroBucket = f (l.getD i zeroBucket) := by
  rw [List.getD_eq_getElem _ _ (by simpa using h), List.getD_eq_getElem _ _ h,
    List.getElem_map]

theorem getD_map_count (f : TxConfirmStatBucketCount → TxConfirmStatBucketCount)
    (l : List TxConfirmStatBucketCount) (i : ℕ) (h : i < l.length) :
    (l.map f).getD i zeroCount = f (l.getD i zeroCount) := by
  rw [List.getD_eq_getElem _ _ (by simpa using h), List.getD_eq_getElem _ _ h,
    List.getElem_map]

theorem length_shiftDown (c : ℕ) (l : List TxConfirmStatBucketCount) :
    (shiftDown c l).length = l.length := by
  induction c generalizing l with
  | zero => rfl
  | succ m ih => simp [shiftDown, ih]

theorem getD_shiftDown (c : ℕ) (l : List TxConfirmStatBucketCount) (hc : c < l.length)
    (s : ℕ) : (shiftDown c l).getD s zeroCount =
      if 1 ≤ s ∧ s ≤ c then l.getD (s - 1) zeroCount else l.getD s zeroCount := by
  induction c generalizing l with
  | zero => rw [shiftDown, if_neg (by omega)]
  | succ m ih =>
    rw [shiftDown, ih _ (by simpa using Nat.lt_of_succ_lt hc)]
    by_cases h1 : 1 ≤ s ∧ s ≤ m
    · rw [if_pos h1, if_pos ⟨h1.1, by omega⟩, getD_set', if_neg (by omega)]
    · by_cases h2 : s = m + 1
      · rw [if_neg h1, if_pos ⟨by omega, by omega⟩, getD_set', if_pos ⟨h2, by omega⟩, h2]
        simp
      · rw [if_neg h1, if_neg (by omega), getD_set', if_neg (by omega)]

/-! ### Lemmas about `lowerBucket` -/

theorem lowerBucketAux_lt (rate : ℚ) : ∀ (l : List TxConfirmStatBucket), l ≠ [] →
    lowerBucketAux rate l < l.length
  | [], h => absurd rfl h
  | [b0], _ => by simp [lowerBucketAux]
  | b0 :: b1 :: rest, _ => by
    rw [lowerBucketAux]
    split
    · simp
    · have := lowerBucketAux_lt rate (b1 :: rest) (by simp)
      simp only [List.length_cons] at this ⊢
      omega

theorem lowerBucketAux_spec (rate : ℚ) : ∀ (l : List TxConfirmStatBucket),
    (lowerBucketAux rate l + 1 < l.length →
      rate < (l.getD (lowerBucketAux rate l + 1) zeroBucket).upperBound) ∧
    (1 ≤ lowerBucketAux rate l →
      (l.getD (lowerBucketAux rate l) zeroBucket).upperBound ≤ rate)
  | [] => by simp [lowerBucketAux]
  | [b0] => by simp [lowerBucketAux]
  | b0 :: b1 :: rest => by
    have ih := lowerBucketAux_spec rate (b1 :: rest)
    rw [lowerBucketAux]
    by_cases h : rate < b1.upperBound
    · rw [if_pos h]
      exact ⟨fun _ => by simpa using h, fun habs => absurd habs (by omega)⟩
    · rw [if_neg h]
      set i := lowerBucketAux rate (b1 :: rest) with hi
      constructor
      · intro hlen
        rcases Nat.eq_zero_or_pos i with h0 | h1
        · have : (1 : ℕ) + 0 + 1 = 2 := rfl
          rw [h0]
          have h2 := ih.1 (by simp only [List.length_cons] at hlen ⊢; omega)
          rw [h0] at h2
          simpa using h2
        · have h2 := ih.1 (by simp only [List.length_cons] at hlen ⊢; omega)
          have : 1 + i + 1 = (i + 1) + 1 := by omega
          rw [this, List.getD_cons_succ]
          exact h2
      · intro _
        rcases Nat.eq_zero_or_pos i with h0 | h1
        · rw [h0]
          simpa using not_lt.mp h
        · have h2 := ih.2 h1
          have : 1 + i = i + 1 := by omega
          rw [this, List.getD_cons_succ]
          exact h2


/-! ### Characterizations of the mutating operations -/

theorem newMinedTx_bucketAt_self (stats : TxConfirmStats) (d : ℤ) (rate : ℚ)
    (hi : stats.lowerBucket rate < stats.buckets.length) :
    (stats.newMinedTx d rate).bucketAt (stats.lowerBucket rate) =
      { stats.bucketAt (stats.lowerBucket rate) with
        confirmed := bumpFrom rate (stats.confirmRange d)
          ((stats.bucketAt (stats.lowerBucket rate)).confirmed)
        confirmCount := (stats.bucketAt (stats.lowerBucket rate)).confirmCount + 1
        feeSum := (stats.bucketAt (stats.lowerBucket rate)).feeSum + rate } := by
  rw [TxConfirmStats.newMinedTx, TxConfirmStats.bucketAt, TxConfirmStats.bucketAt]
  rw [getD_modifyIdx, if_pos ⟨rfl, hi⟩]

theorem newMinedTx_bucketAt_other (stats : TxConfirmStats) (d : ℤ) (rate : ℚ)
    (j : ℕ) (hj : j ≠ stats.lowerBucket rate) :
    (stats.newMinedTx d rate).bucketAt j = stats.bucketAt j := by
  rw [TxConfirmStats.newMinedTx, TxConfirmStats.bucketAt, TxConfirmStats.bucketAt]
  rw [getD_modifyIdx, if_neg (by intro h; exact hj h.1)]

theorem newMinedTx_memAt_self (stats : TxConfirmStats) (d : ℤ) (rate : ℚ)
    (hi : stats.lowerBucket rate < stats.memPool.length) :
    (stats.newMinedTx d rate).memAt (stats.lowerBucket rate) =
      { stats.memAt (stats.lowerBucket rate) with
        confirmed := modifyIdx (decCell rate) (stats.confirmRange d).toNat
          ((stats.memAt (stats.lowerBucket rate)).confirmed) } := by
  rw [TxConfirmStats.newMinedTx, TxConfirmStats.memAt, TxConfirmStats.memAt]
  rw [getD_modifyIdx, if_pos ⟨rfl, hi⟩]

theorem newMinedTx_memAt_other (stats : TxConfirmStats) (d : ℤ) (rate : ℚ)
    (j : ℕ) (hj : j ≠ stats.lowerBucket rate) :
    (stats.newMinedTx d rate).memAt j = stats.memAt j := by
  rw [TxConfirmStats.newMinedTx, TxConfirmStats.memAt, TxConfirmStats.memAt]
  rw [getD_modifyIdx, if_neg (by intro h; exact hj h.1)]

theorem newMemPoolTx_buckets (stats : TxConfirmStats) (rate : ℚ) :
    (stats.newMemPoolTx rate).buckets = stats.buckets := rfl

theorem updateMovingAverages_bucketAt (stats : TxConfirmStats) (i : ℕ)
    (hi : i < stats.buckets.length) :
    stats.updateMovingAverages.bucketAt i = decayBucket stats.decay (stats.bucketAt i) := by
  rw [TxConfirmStats.updateMovingAverages, TxConfirmStats.bucketAt, TxConfirmStats.bucketAt]
  exact getD_map' _ _ _ hi

theorem updateMovingAverages_memAt (stats : TxConfirmStats) (i : ℕ)
    (hi : i < stats.memPool.length) :
    stats.updateMovingAverages.memAt i = shiftBucket (stats.memAt i) := by
  rw [TxConfirmStats.updateMovingAverages, TxConfirmStats.memAt, TxConfirmStats.memAt]
  exact getD_map' _ _ _ hi

/-! ### Claim C1: `confirmRange` -/

/-- C1 counterexample: for delay `d = 2` the source's `confirmRange` returns
`2`, not `min (d - 1) (maxConfirms - 1) = 1` as the claim states. -/
theorem confirmRange_claim_cex :
    newTxConfirmStats.confirmRange 2 ≠ min (2 - 1) (newTxConfirmStats.maxConfirms - 1) := by
  decide

/-- C1 (amended): for every delay `d ≥ 1`, `confirmRange` returns
`min d (maxConfirms - 1)` (not `min (d - 1) (maxConfirms - 1)`); a
transaction mined after `d ≥ 1` blocks is recorded at confirmation slot
`min d (maxConfirms - 1)`. -/
theorem confirmRange_eq_min (stats : TxConfirmStats) (d : ℤ) (hd : 1 ≤ d) :
    stats.confirmRange d = min d (stats.maxConfirms - 1) := by
  rw [TxConfirmStats.confirmRange]
  split <;> omega

/-- C1 witness: the amended claim evaluated at `d = 7` on the constructed
estimator (`maxConfirms = 5`). -/
theorem confirmRange_eq_min_witness :
    newTxConfirmStats.confirmRange 7 = min 7 (newTxConfirmStats.maxConfirms - 1) :=
  confirmRange_eq_min newTxConfirmStats 7 (by decide)

/-! ### Claim C3: `lowerBucket` -/

/-- C3 counterexample: at rate `12` the bucket returned by `lowerBucket` has
upper bound `10 < 12`, although bucket 1 (bound `15 ≥ 12`) exists — so
`lowerBucket` does not return the smallest `i` with `B[i] ≥ r`. -/
theorem lowerBucket_claim_cex :
    (newTxConfirmStats.bucketAt (newTxConfirmStats.lowerBucket 12)).upperBound < 12 ∧
      12 ≤ (newTxConfirmStats.bucketAt 1).upperBound := by
  constructor <;> with_unfolding_all decide

/-- C3 (amended): `lowerBucket r` returns an in-range index `i` such that
`r < B[i+1]` whenever slot `i + 1` exists and `B[i] ≤ r` whenever `i ≥ 1`:
rates fall into lower-bound-inclusive buckets `[B[i], B[i+1])`, every rate
below `B[1]` (including rates below `B[0]`) into bucket 0, and every rate
`≥ B[n-1]` into bucket `n - 1`. -/
theorem lowerBucket_spec (stats : TxConfirmStats) (rate : ℚ)
    (hne : stats.buckets ≠ []) :
    stats.lowerBucket rate < stats.buckets.length ∧
    (stats.lowerBucket rate + 1 < stats.buckets.length →
      rate < (stats.bucketAt (stats.lowerBucket rate + 1)).upperBound) ∧
    (1 ≤ stats.lowerBucket rate →
      (stats.bucketAt (stats.lowerBucket rate)).upperBound ≤ rate) := by
  have h1 := lowerBucketAux_lt rate stats.buckets hne
  have h2 := lowerBucketAux_spec rate stats.buckets
  exact ⟨h1, h2.1, h2.2⟩

/-- C3 witness: the amended claim evaluated at rate `12` on the constructed
estimator, where `lowerBucket 12 = 0` with `B[1] = 15`. -/
theorem lowerBucket_spec_witness :
    newTxConfirmStats.lowerBucket 12 < newTxConfirmStats.buckets.length ∧
    (newTxConfirmStats.lowerBucket 12 + 1 < newTxConfirmStats.buckets.length →
      12 < (newTxConfirmStats.bucketAt (newTxConfirmStats.lowerBucket 12 + 1)).upperBound) ∧
    (1 ≤ newTxConfirmStats.lowerBucket 12 →
      (newTxConfirmStats.bucketAt (newTxConfirmStats.lowerBucket 12)).upperBound ≤ 12) :=
  lowerBucket_spec newTxConfirmStats 12 (by with_unfolding_all decide)

/-! ### Claim C2: no target-too-large error -/

/-- C2 counterexample: with `target_confirms = 6` and
`target_confirms - 1 = 5 ≥ maxConfirms = 5`, `estimateMedianFee` does not
fail: on a state holding three transactions confirmed with delay 1 it
returns the fee rate 300000.  The source has no `TargetConfTooLarge` error
at all. -/
theorem estimateMedianFee_target_cex :
    minedState.maxConfirms ≤ (6 : ℤ) - 1 ∧
      minedState.estimateMedianFee 6 (1 / 2) = .ok 300000 := by
  constructor
  · with_unfolding_all decide
  · with_unfolding_all rfl

/-- C2 (amended): a target of `max_confirms` or more is not rejected; it is
clamped by `confirmRange` to the final confirmation slot, so the result
equals the estimate for `target_confirms = max_confirms`. -/
theorem estimateMedianFee_clamp (stats : TxConfirmStats) (minConfs : ℤ)
    (successPct : ℚ) (h : stats.maxConfirms ≤ minConfs) :
    stats.estimateMedianFee minConfs successPct =
      stats.estimateMedianFee stats.maxConfirms successPct := by
  have hc : stats.confirmRange minConfs = stats.confirmRange stats.maxConfirms := by
    rw [TxConfirmStats.confirmRange, TxConfirmStats.confirmRange, if_pos h, if_pos le_rfl]
  simp only [TxConfirmStats.estimateMedianFee, hc]

/-- C2 witness: the amended claim evaluated at `target_confirms = 6` on the
mined concrete state. -/
theorem estimateMedianFee_clamp_witness :
    minedState.estimateMedianFee 6 (1 / 2) =
      minedState.estimateMedianFee minedState.maxConfirms (1 / 2) :=
  estimateMedianFee_clamp minedState 6 (1 / 2) (by with_unfolding_all decide)

/-! ### Claim C4: `newMinedTx` recording -/

/-- Cell-level characterization of `newMinedTx` on the confirmed table,
shared by several claims below. -/
theorem newMinedTx_cells (stats : TxConfirmStats) (d : ℤ) (rate : ℚ)
    (hne : stats.buckets ≠ []) :
    (∀ c : ℕ, c < (stats.bucketAt (stats.lowerBucket rate)).confirmed.length →
      ((stats.newMinedTx d rate).bucketAt (stats.lowerBucket rate)).confirmed.getD c
          zeroCount =
        (if stats.confirmRange d ≤ (c : ℤ) then
          bumpCell rate ((stats.bucketAt (stats.lowerBucket rate)).confirmed.getD c zeroCount)
         else (stats.bucketAt (stats.lowerBucket rate)).confirmed.getD c zeroCount)) ∧
    ((stats.newMinedTx d rate).bucketAt (stats.lowerBucket rate)).confirmCount =
      (stats.bucketAt (stats.lowerBucket rate)).confirmCount + 1 ∧
    ((stats.newMinedTx d rate).bucketAt (stats.lowerBucket rate)).feeSum =
      (stats.bucketAt (stats.lowerBucket rate)).feeSum + rate ∧
    (∀ j, j ≠ stats.lowerBucket rate →
      (stats.newMinedTx d rate).bucketAt j = stats.bucketAt j) := by
  have hi : stats.lowerBucket rate < stats.buckets.length :=
    lowerBucketAux_lt rate stats.buckets hne
  have hb := newMinedTx_bucketAt_self stats d rate hi
  refine ⟨fun c hc => ?_, ?_, ?_, fun j hj => newMinedTx_bucketAt_other stats d rate j hj⟩
  · rw [hb]
    show (bumpFrom rate (stats.confirmRange d)
        ((stats.bucketAt (stats.lowerBucket rate)).confirmed)).getD c zeroCount = _
    rw [getD_bumpFrom]
    by_cases h : stats.confirmRange d ≤ (c : ℤ)
    · rw [if_pos ⟨h, hc⟩, if_pos h]
    · rw [if_neg (by tauto), if_neg h]
  · rw [hb]
  · rw [hb]

/-- C4: recording a mined transaction with delay `d` and rate `rate` bumps
`(txCount, feeSum)` by `(1, rate)` at exactly the confirmed cells of the
rate's bucket whose slot is `≥ confirmRange d`, bumps the per-bucket
aggregate `(confirmCount, feeSum)` by `(1, rate)` exactly once, and leaves
every other confirmed bucket (cells and aggregates) unchanged. -/
theorem newMinedTx_records (stats : TxConfirmStats) (d : ℤ) (rate : ℚ)
    (hne : stats.buckets ≠ []) :
    (∀ c : ℕ, c < (stats.bucketAt (stats.lowerBucket rate)).confirmed.length →
      ((stats.newMinedTx d rate).bucketAt (stats.lowerBucket rate)).confirmed.getD c
          zeroCount =
        (if stats.confirmRange d ≤ (c : ℤ) then
          bumpCell rate ((stats.bucketAt (stats.lowerBucket rate)).confirmed.getD c zeroCount)
         else (stats.bucketAt (stats.lowerBucket rate)).confirmed.getD c zeroCount)) ∧
    ((stats.newMinedTx d rate).bucketAt (stats.lowerBucket rate)).confirmCount =
      (stats.bucketAt (stats.lowerBucket rate)).confirmCount + 1 ∧
    ((stats.newMinedTx d rate).bucketAt (stats.lowerBucket rate)).feeSum =
      (stats.bucketAt (stats.lowerBucket rate)).feeSum + rate ∧
    (∀ j, j ≠ stats.lowerBucket rate →
      (stats.newMinedTx d rate).bucketAt j = stats.bucketAt j) :=
  newMinedTx_cells stats d rate hne

/-- C4 witness: the aggregate `confirmCount` bump evaluated on the small
handmade state at delay 2, rate 100 (bucket 2). -/
theorem newMinedTx_records_witness :
    ((demoStats.newMinedTx 2 100).bucketAt (demoStats.lowerBucket 100)).confirmCount =
      (demoStats.bucketAt (demoStats.lowerBucket 100)).confirmCount + 1 :=
  (newMinedTx_records demoStats 2 100 (by with_unfolding_all decide)).2.1

/-! ### Claim C8: mining with delay 0 -/

/-- C8 counterexample: a transaction mined in the same block it was added
(`d = 0`) IS recorded in the confirmed table: on `oneTxState` (one mempool
transaction at rate 300000) the per-bucket aggregate `confirmCount` of its
fee bucket changes when `newMinedTx 0` is processed. -/
theorem newMinedTx_delay_zero_cex :
    ((oneTxState.newMinedTx 0 300000).bucketAt 25).confirmCount ≠
      (oneTxState.bucketAt 25).confirmCount := by
  with_unfolding_all decide

/-- C8 (amended): a transaction mined with delay `d = 0` decrements its
mempool cell at slot `confirmRange 0 = 0` AND is recorded in the confirmed
table at slot 0: every confirmed cell of its fee bucket and the per-bucket
aggregate `(confirmCount, feeSum)` are incremented by `(1, rate)`. -/
theorem newMinedTx_delay_zero (stats : TxConfirmStats) (rate : ℚ)
    (hne : stats.buckets ≠ []) (hmem : stats.lowerBucket rate < stats.memPool.length)
    (hmax : 1 ≤ stats.maxConfirms)
    (hcl : 0 < (stats.memAt (stats.lowerBucket rate)).confirmed.length) :
    (∀ c : ℕ, c < (stats.bucketAt (stats.lowerBucket rate)).confirmed.length →
      ((stats.newMinedTx 0 rate).bucketAt (stats.lowerBucket rate)).confirmed.getD c
          zeroCount =
        bumpCell rate ((stats.bucketAt (stats.lowerBucket rate)).confirmed.getD c zeroCount)) ∧
    ((stats.newMinedTx 0 rate).bucketAt (stats.lowerBucket rate)).confirmCount =
      (stats.bucketAt (stats.lowerBucket rate)).confirmCount + 1 ∧
    ((stats.newMinedTx 0 rate).bucketAt (stats.lowerBucket rate)).feeSum =
      (stats.bucketAt (stats.lowerBucket rate)).feeSum + rate ∧
    ((stats.newMinedTx 0 rate).memAt (stats.lowerBucket rate)).confirmed.getD 0 zeroCount =
      decCell rate ((stats.memAt (stats.lowerBucket rate)).confirmed.getD 0 zeroCount) := by
  have hzero : stats.confirmRange 0 = 0 := by
    rw [TxConfirmStats.confirmRange, if_neg (by omega)]
  have hi : stats.lowerBucket rate < stats.buckets.length :=
    lowerBucketAux_lt rate stats.buckets hne
  have hrec := newMinedTx_cells stats 0 rate hne
  refine ⟨fun c hc => ?_, hrec.2.1, hrec.2.2.1, ?_⟩
  · have := hrec.1 c hc
    rwa [hzero, if_pos (by omega)] at this
  · have hm := newMinedTx_memAt_self stats 0 rate hmem
    rw [hm]
    show (modifyIdx (decCell rate) (stats.confirmRange 0).toNat
        ((stats.memAt (stats.lowerBucket rate)).confirmed)).getD 0 zeroCount = _
    rw [hzero]
    rw [getD_modifyIdx, if_pos ⟨rfl, hcl⟩]

/-- C8 witness: the amended claim's mempool decrement evaluated on
`oneTxState`. -/
theorem newMinedTx_delay_zero_witness :
    ((oneTxState.newMinedTx 0 300000).memAt (oneTxState.lowerBucket 300000)).confirmed.getD
        0 zeroCount =
      decCell 300000
        ((oneTxState.memAt (oneTxState.lowerBucket 300000)).confirmed.getD 0 zeroCount) :=
  (newMinedTx_delay_zero oneTxState 300000 (by with_unfolding_all decide)
    (by with_unfolding_all decide) (by with_unfolding_all decide)
    (by with_unfolding_all decide)).2.2.2

/-! ### Claim C5: `updateMovingAverages` -/

/-- End-state characterization of the mempool shift of one bucket. -/
theorem shiftBucket_cells (b : TxConfirmStatBucket) (h2 : 2 ≤ b.confirmed.length) :
    (shiftBucket b).confirmed.getD 0 zeroCount = zeroCount ∧
    (∀ s, 1 ≤ s → s ≤ b.confirmed.length - 2 →
      (shiftBucket b).confirmed.getD s zeroCount = b.confirmed.getD (s - 1) zeroCount) ∧
    (shiftBucket b).confirmed.getD (b.confirmed.length - 1) zeroCount =
      ⟨(b.confirmed.getD (b.confirmed.length - 1) zeroCount).txCount +
         (b.confirmed.getD (b.confirmed.length - 2) zeroCount).txCount,
       (b.confirmed.getD (b.confirmed.length - 1) zeroCount).feeSum +
         (b.confirmed.getD (b.confirmed.length - 2) zeroCount).feeSum⟩ := by
  have hlenset : (b.confirmed.set (b.confirmed.length - 1)
      (⟨(b.confirmed.getD (b.confirmed.length - 1) zeroCount).txCount +
          (b.confirmed.getD (b.confirmed.length - 2) zeroCount).txCount,
        (b.confirmed.getD (b.confirmed.length - 1) zeroCount).feeSum +
          (b.confirmed.getD (b.confirmed.length - 2) zeroCount).feeSum⟩ :
        TxConfirmStatBucketCount)).length = b.confirmed.length := by
    simp
  refine ⟨?_, fun s hs1 hs2 => ?_, ?_⟩
  · show ((shiftDown (b.confirmed.length - 2) _).set 0 zeroCount).getD 0 zeroCount = zeroCount
    rw [getD_set', if_pos ⟨rfl, by rw [length_shiftDown, hlenset]; omega⟩]
  · show ((shiftDown (b.confirmed.length - 2) _).set 0 zeroCount).getD s zeroCount = _
    rw [getD_set', if_neg (by omega), getD_shiftDown _ _ (by rw [hlenset]; omega),
      if_pos ⟨hs1, hs2⟩, getD_set', if_neg (by omega)]
  · show ((shiftDown (b.confirmed.length - 2) _).set 0 zeroCount).getD
        (b.confirmed.length - 1) zeroCount = _
    rw [getD_set', if_neg (by omega), getD_shiftDown _ _ (by rw [hlenset]; omega),
      if_neg (by omega), getD_set', if_pos ⟨rfl, by omega⟩]

/-- C5: one `updateMovingAverages` call (a) multiplies every confirmed
cell's `txCount`/`feeSum` and every per-bucket aggregate's
`confirmCount`/`feeSum` by exactly `0.998 = 499/500`, and (b) in every
mempool bucket adds the old second-to-last slot into the last slot, moves
each slot `s ∈ [1, maxConfirms - 2]` up from slot `s - 1`, and zeroes
slot 0; the mempool table is not decayed. -/
theorem updateMovingAverages_spec (stats : TxConfirmStats)
    (hdecay : stats.decay = 499 / 500) :
    (∀ i, i < stats.buckets.length →
      (stats.updateMovingAverages.bucketAt i).confirmCount =
        (stats.bucketAt i).confirmCount * (499 / 500) ∧
      (stats.updateMovingAverages.bucketAt i).feeSum =
        (stats.bucketAt i).feeSum * (499 / 500) ∧
      (∀ s, s < (stats.bucketAt i).confirmed.length →
        (stats.updateMovingAverages.bucketAt i).confirmed.getD s zeroCount =
          ⟨((stats.bucketAt i).confirmed.getD s zeroCount).txCount * (499 / 500),
           ((stats.bucketAt i).confirmed.getD s zeroCount).feeSum * (499 / 500)⟩)) ∧
    (∀ i, i < stats.memPool.length → 2 ≤ (stats.memAt i).confirmed.length →
      (stats.updateMovingAverages.memAt i).confirmed.getD 0 zeroCount = zeroCount ∧
      (∀ s, 1 ≤ s → s ≤ (stats.memAt i).confirmed.length - 2 →
        (stats.updateMovingAverages.memAt i).confirmed.getD s zeroCount =
          (stats.memAt i).confirmed.getD (s - 1) zeroCount) ∧
      (stats.updateMovingAverages.memAt i).confirmed.getD
          ((stats.memAt i).confirmed.length - 1) zeroCount =
        ⟨((stats.memAt i).confirmed.getD ((stats.memAt i).confirmed.length - 1)
             zeroCount).txCount +
           ((stats.memAt i).confirmed.getD ((stats.memAt i).confirmed.length - 2)
             zeroCount).txCount,
         ((stats.memAt i).confirmed.getD ((stats.memAt i).confirmed.length - 1)
             zeroCount).feeSum +
           ((stats.memAt i).confirmed.getD ((stats.memAt i).confirmed.length - 2)
             zeroCount).feeSum⟩) := by
  constructor
  · intro i hi
    rw [updateMovingAverages_bucketAt stats i hi, hdecay]
    refine ⟨rfl, rfl, fun s hs => ?_⟩
    show ((stats.bucketAt i).confirmed.map (decayCount (499 / 500))).getD s zeroCount = _
    rw [getD_map_count _ _ _ hs]
    rfl
  · intro i hi h2
    rw [updateMovingAverages_memAt stats i hi]
    exact shiftBucket_cells (stats.memAt i) h2

/-- C5 witness: the shift of mempool slot 1 into slot 2 evaluated on the
handmade state. -/
theorem updateMovingAverages_spec_witness :
    (demoStats.updateMovingAverages.memAt 0).confirmed.getD 2 zeroCount =
      (demoStats.memAt 0).confirmed.getD (2 - 1) zeroCount :=
  ((updateMovingAverages_spec demoStats rfl).2 0 (by with_unfolding_all decide)
    (by with_unfolding_all decide)).2.1 2 (by omega) (by with_unfolding_all decide)

/-! ### Claim C9: monotone confirmed rows -/

/-- C9: within each fee bucket of the confirmed table, `txCount` being
non-decreasing across delay slots is preserved by recording a mempool
transaction, by the per-block moving-average update (whose decay factor is
non-negative), and by recording a mined transaction. -/
theorem operations_preserve_mono (stats : TxConfirmStats) (d : ℤ) (rate : ℚ)
    (hdecay : 0 ≤ stats.decay) (hmono : MonoConfirmed stats) :
    MonoConfirmed (stats.newMemPoolTx rate) ∧
    MonoConfirmed stats.updateMovingAverages ∧
    MonoConfirmed (stats.newMinedTx d rate) := by
  refine ⟨hmono, ?_, ?_⟩
  · intro i hi s hs
    have hi' : i < stats.buckets.length := by
      simpa [TxConfirmStats.updateMovingAverages] using hi
    have hconf : (stats.updateMovingAverages.bucketAt i).confirmed =
        (stats.bucketAt i).confirmed.map (decayCount stats.decay) :=
      congrArg TxConfirmStatBucket.confirmed (updateMovingAverages_bucketAt stats i hi')
    rw [hconf] at hs ⊢
    rw [List.length_map] at hs
    rw [getD_map_count _ _ _ (by omega), getD_map_count _ _ _ (by omega)]
    show ((stats.bucketAt i).confirmed.getD s zeroCount).txCount * stats.decay ≤
      ((stats.bucketAt i).confirmed.getD (s + 1) zeroCount).txCount * stats.decay
    exact mul_le_mul_of_nonneg_right (hmono i hi' s hs) hdecay
  · intro i hi s hs
    have hi' : i < stats.buckets.length := by
      simpa [TxConfirmStats.newMinedTx, length_modifyIdx] using hi
    by_cases hij : i = stats.lowerBucket rate
    · subst hij
      have hconf : ((stats.newMinedTx d rate).bucketAt (stats.lowerBucket rate)).confirmed =
          bumpFrom rate (stats.confirmRange d)
            ((stats.bucketAt (stats.lowerBucket rate)).confirmed) :=
        congrArg TxConfirmStatBucket.confirmed (newMinedTx_bucketAt_self stats d rate hi')
      rw [hconf] at hs ⊢
      rw [length_bumpFrom] at hs
      rw [getD_bumpFrom, getD_bumpFrom]
      have hb := hmono (stats.lowerBucket rate) hi' s hs
      by_cases hcs : stats.confirmRange d ≤ (s : ℤ)
      · rw [if_pos ⟨hcs, by omega⟩, if_pos ⟨by push_cast; omega, by omega⟩]
        show _ + 1 ≤ _ + 1
        exact add_le_add_right hb 1
      · by_cases hcs1 : stats.confirmRange d ≤ ((s : ℤ) + 1)
        · rw [if_neg (by tauto), if_pos ⟨by push_cast; omega, by omega⟩]
          show _ ≤ _ + 1
          exact le_trans hb (by linarith)
        · rw [if_neg (by tauto), if_neg (by push_cast; tauto)]
          exact hb
    · have heq := newMinedTx_bucketAt_other stats d rate i hij
      rw [heq] at hs ⊢
      exact hmono i hi' s hs

/-- C9 witness: the invariant evaluated on the handmade state across all
three operations. -/
theorem operations_preserve_mono_witness :
    MonoConfirmed (demoStats.newMemPoolTx 100) ∧
    MonoConfirmed demoStats.updateMovingAverages ∧
    MonoConfirmed (demoStats.newMinedTx 2 100) :=
  operations_preserve_mono demoStats 2 100 (by with_unfolding_all decide)
    (by unfold MonoConfirmed; with_unfolding_all decide)

/-! ### Claims C6 and C10: the median phase -/

theorem sumConfirmCount_cons (stats : TxConfirmStats) (b : ℕ) (l : List ℕ) :
    sumConfirmCount stats (b :: l) =
      (stats.bucketAt b).confirmCount + sumConfirmCount stats l := by
  simp [sumConfirmCount]

theorem medianLoop_eq_select (stats : TxConfirmStats) (l : List ℕ) : ∀ t : ℚ,
    medianLoop stats t l =
      (match specMedianSelect stats t l with
        | some b => .ok ((stats.bucketAt b).feeSum / (stats.bucketAt b).confirmCount)
        | none => .error .internalError) := by
  induction l with
  | nil => intro t; rfl
  | cons b rest ih =>
    intro t
    rw [medianLoop, specMedianSelect]
    by_cases h : (stats.bucketAt b).confirmCount < t
    · rw [if_pos h, if_pos h, ih]
    · rw [if_neg h, if_neg h]

theorem specMedianSelect_mem (stats : TxConfirmStats) (l : List ℕ) : ∀ (t : ℚ) (b : ℕ),
    specMedianSelect stats t l = some b → b ∈ l := by
  induction l with
  | nil => intro t b h; exact absurd h (by rw [specMedianSelect]; simp)
  | cons b0 rest ih =>
    intro t b h
    rw [specMedianSelect] at h
    by_cases hc : (stats.bucketAt b0).confirmCount < t
    · rw [if_pos hc] at h
      exact List.mem_cons_of_mem b0 (ih _ b h)
    · rw [if_neg hc] at h
      injection h with h
      exact h ▸ List.mem_cons_self b0 rest

theorem specMedianSelect_exists (stats : TxConfirmStats) (l : List ℕ) : ∀ t : ℚ,
    t ≤ sumConfirmCount stats l → l ≠ [] →
    ∃ b, specMedianSelect stats t l = some b := by
  induction l with
  | nil => intro t _ hne; exact absurd rfl hne
  | cons b0 rest ih =>
    intro t ht _
    rw [sumConfirmCount_cons] at ht
    by_cases hc : (stats.bucketAt b0).confirmCount < t
    · have hrest : rest ≠ [] := by
        intro he
        rw [he] at ht
        simp only [sumConfirmCount, List.map_nil, List.sum_nil, add_zero] at ht
        linarith
      obtain ⟨b, hb⟩ := ih (t - (stats.bucketAt b0).confirmCount) (by linarith) hrest
      exact ⟨b, by rw [specMedianSelect, if_pos hc]; exact hb⟩
    · exact ⟨b0, by rw [specMedianSelect, if_neg hc]⟩

/-- C6: in the median phase over the selected range, letting `T` be the sum
of per-bucket `confirmCount` over the range: if `T ≤ 0` the operation
fails with `ErrNotEnoughTxsForEstimate`; otherwise `T` is halved, the range
is scanned in ascending order subtracting `confirmCount` while it is below
the remaining half-total, and the first bucket at or above it yields the
returned estimate `feeSum / confirmCount`. -/
theorem medianPhase_spec (stats : TxConfirmStats) (stt e : ℕ) :
    (sumConfirmCount stats (rangeList stt e) ≤ 0 →
      medianPhase stats stt e = .error .notEnoughTxsForEstimate) ∧
    (0 < sumConfirmCount stats (rangeList stt e) →
      ∀ b, specMedianSelect stats (sumConfirmCount stats (rangeList stt e) / 2)
          (rangeList stt e) = some b →
        b ∈ rangeList stt e ∧
        medianPhase stats stt e =
          .ok ((stats.bucketAt b).feeSum / (stats.bucketAt b).confirmCount)) := by
  constructor
  · intro h
    rw [medianPhase, if_pos h]
  · intro h b hb
    refine ⟨specMedianSelect_mem stats (rangeList stt e) _ b hb, ?_⟩
    rw [medianPhase, if_neg (not_le.mpr h), medianLoop_eq_select, hb]

/-- C6 witness: the median selection evaluated on the handmade state over
the one-bucket range `[2, 2]`. -/
theorem medianPhase_spec_witness :
    2 ∈ rangeList 2 2 ∧
      medianPhase demoStats 2 2 =
        .ok ((demoStats.bucketAt 2).feeSum / (demoStats.bucketAt 2).confirmCount) :=
  (medianPhase_spec demoStats 2 2).2 (by with_unfolding_all decide) 2
    (by with_unfolding_all rfl)

/-- C10: whenever the backwards scan of `estimateMedianFee` selects a range
whose summed `confirmCount` is strictly positive, the ascending median scan
returns the fee rate of a bucket inside the range, and the trailing
`internalError` branch is unreachable. -/
theorem estimateMedianFee_total (stats : TxConfirmStats) (minConfs : ℤ) (successPct : ℚ)
    (stt e : ℤ)
    (hscan : scanLoop stats (stats.confirmRange minConfs).toNat successPct
        ((stats.buckets.length : ℤ) - 1) stats.buckets.length
        ⟨0, 0, (stats.buckets.length : ℤ) - 1, (stats.buckets.length : ℤ) - 1,
          (stats.buckets.length : ℤ) - 1, (stats.buckets.length : ℤ) - 1⟩ =
        .ok (stt, e))
    (hT : 0 < sumConfirmCount stats (rangeList stt.toNat e.toNat)) :
    stats.estimateMedianFee minConfs successPct ≠ .error .internalError ∧
    ∃ b, b ∈ rangeList stt.toNat e.toNat ∧
      stats.estimateMedianFee minConfs successPct =
        .ok ((stats.bucketAt b).feeSum / (stats.bucketAt b).confirmCount) := by
  have hE : stats.estimateMedianFee minConfs successPct =
      medianPhase stats stt.toNat e.toNat := by
    rw [TxConfirmStats.estimateMedianFee]
    rw [hscan]
  have hne : rangeList stt.toNat e.toNat ≠ [] := by
    intro he
    rw [he] at hT
    simp only [sumConfirmCount, List.map_nil, List.sum_nil] at hT
    exact lt_irrefl 0 hT
  obtain ⟨b, hb⟩ := specMedianSelect_exists stats (rangeList stt.toNat e.toNat)
    (sumConfirmCount stats (rangeList stt.toNat e.toNat) / 2) (by linarith) hne
  have hok : stats.estimateMedianFee minConfs successPct =
      .ok ((stats.bucketAt b).feeSum / (stats.bucketAt b).confirmCount) := by
    rw [hE, medianPhase, if_neg (not_le.mpr hT), medianLoop_eq_select, hb]
  refine ⟨?_, b, specMedianSelect_mem stats _ _ b hb, hok⟩
  rw [hok]
  intro h
  exact Except.noConfusion h

/-- C10 witness: on the mined concrete state the scan selects `[25, 42]`
with total 3, and the estimate is not the internal error. -/
theorem estimateMedianFee_total_witness :
    minedState.estimateMedianFee 1 (1 / 2) ≠ .error .internalError :=
  (estimateMedianFee_total minedState 1 (1 / 2) 25 42 (by with_unfolding_all rfl)
    (by with_unfolding_all decide)).1

/-! ### Claim C7: the scan failure condition -/

/-- C7: at a scan iteration where the accumulated total exceeds 1 while the
confirmed ratio is below `successPct`: if the current run has never
advanced past the starting bucket (`curEnd = startIdx`) the scan fails with
`ErrNoSuccessPctBucketFound`; otherwise it stops and the best run found so
far is used. -/
theorem scanLoop_failure (stats : TxConfirmStats) (cIdx : ℕ) (successPct : ℚ)
    (startIdx : ℤ) (fuel : ℕ) (st : ScanState)
    (h1 : 1 < st.totalTxs + (stats.bucketAt fuel).confirmCount +
      cellTx (stats.memAt fuel) cIdx)
    (h2 : (st.confirmedTxs + cellTx (stats.bucketAt fuel) cIdx) /
        (st.totalTxs + (stats.bucketAt fuel).confirmCount +
          cellTx (stats.memAt fuel) cIdx) < successPct) :
    (st.curEnd = startIdx → scanLoop stats cIdx successPct startIdx (fuel + 1) st =
      .error .noSuccessPctBucketFound) ∧
    (st.curEnd ≠ startIdx → scanLoop stats cIdx successPct startIdx (fuel + 1) st =
      .ok (st.bestStt, st.bestEnd)) := by
  constructor <;> intro h
  · rw [scanLoop, if_pos h1, if_pos h2, if_pos h]
  · rw [scanLoop, if_pos h1, if_pos h2, if_neg h]

/-- C7 witness: a scan state with accumulated total 2, no confirmed
transactions, and an untouched current run (`curEnd = startIdx = 9`) fails
with `ErrNoSuccessPctBucketFound` on the constructed estimator. -/
theorem scanLoop_failure_witness :
    scanLoop newTxConfirmStats 0 (1 / 2) 9 1 ⟨2, 0, 9, 9, 9, 9⟩ =
      .error .noSuccessPctBucketFound :=
  (scanLoop_failure newTxConfirmStats 0 (1 / 2) 9 0 ⟨2, 0, 9, 9, 9, 9⟩
    (by with_unfolding_all decide) (by with_unfolding_all decide)).1 rfl

end DcrFeeSim
